import Mathlib

/-!
Verification of the `ouro_dag` node against its specification.

This file shallowly embeds the Rust sources of the repository
(`src/ouro_dag/src/...`) into Lean 4 and proves or refutes the frozen
claims about them.  Machine integers are modelled as `Nat` with explicit
`% 2^w` where overflow matters, fallible code returns `Option`/`Except`,
and stateful code is explicit state passing.  Byte strings are
`List Nat` (each element a byte value) and Rust `String`s are
`List Char`.
-/

/-! ## Hex decoding (the `hex` crate's `hex::decode`)

`hex::decode` accepts an even-length string of hex digits (both cases)
and fails otherwise. -/

/-- Value of one hexadecimal digit, `none` on a non-hex character. -/
def hexVal (c : Char) : Option Nat :=
  if '0' ≤ c ∧ c ≤ '9' then some (c.toNat - '0'.toNat)
  else if 'a' ≤ c ∧ c ≤ 'f' then some (c.toNat - 'a'.toNat + 10)
  else if 'A' ≤ c ∧ c ≤ 'F' then some (c.toNat - 'A'.toNat + 10)
  else none

/-- `hex::decode`: bytes of an even-length hex string, `none` on odd
length or a character outside `[0-9a-fA-F]`. -/
def hexDecode : List Char → Option (List Nat)
  | [] => some []
  | [_] => none
  | c1 :: c2 :: rest =>
    match hexVal c1, hexVal c2, hexDecode rest with
    | some hi, some lo, some bs => some ((16 * hi + lo) :: bs)
    | _, _, _ => none

/-! ## SHA-256 (the `sha2` crate), FIPS 180-4, over byte lists -/

/-- 2^32, the modulus of 32-bit words. -/
def M32 : Nat := 4294967296

/-- 32-bit modular addition. -/
def add32 (a b : Nat) : Nat := (a + b) % M32

/-- 32-bit right rotation by `n` of a word `x < 2^32`. -/
def rotr32 (n x : Nat) : Nat := (x / 2 ^ n + x % 2 ^ n * 2 ^ (32 - n)) % M32

/-- 32-bit logical right shift. -/
def shr32 (n x : Nat) : Nat := x / 2 ^ n

/-- 32-bit complement. -/
def not32 (x : Nat) : Nat := 4294967295 - x % M32

def sigmaSmall0 (x : Nat) : Nat := (rotr32 7 x) ^^^ (rotr32 18 x) ^^^ (shr32 3 x)

def sigmaSmall1 (x : Nat) : Nat := (rotr32 17 x) ^^^ (rotr32 19 x) ^^^ (shr32 10 x)

def sigmaBig0 (x : Nat) : Nat := (rotr32 2 x) ^^^ (rotr32 13 x) ^^^ (rotr32 22 x)

def sigmaBig1 (x : Nat) : Nat := (rotr32 6 x) ^^^ (rotr32 11 x) ^^^ (rotr32 25 x)

def shaCh (e f g : Nat) : Nat := (e &&& f) ^^^ (not32 e &&& g)

def shaMaj (a b c : Nat) : Nat := (a &&& b) ^^^ (a &&& c) ^^^ (b &&& c)

/-- The 64 SHA-256 round constants. -/
def shaK : List Nat :=
  [1116352408, 1899447441, 3049323471, 3921009573, 961987163, 1508970993,
   2453635748, 2870763221, 3624381080, 310598401, 607225278, 1426881987,
   1925078388, 2162078206, 2614888103, 3248222580, 3835390401, 4022224774,
   264347078, 604807628, 770255983, 1249150122, 1555081692, 1996064986,
   2554220882, 2821834349, 2952996808, 3210313671, 3336571891, 3584528711,
   113926993, 338241895, 666307205, 773529912, 1294757372, 1396182291,
   1695183700, 1986661051, 2177026350, 2456956037, 2730485921, 2820302411,
   3259730800, 3345764771, 3516065817, 3600352804, 4094571909, 275423344,
   430227734, 506948616, 659060556, 883997877, 958139571, 1322822218,
   1537002063, 1747873779, 1955562222, 2024104815, 2227730452, 2361852424,
   2428436474, 2756734187, 3204031479, 3329325298]

/-- Working state of the compression function. -/
structure Hash8 where
  a : Nat
  b : Nat
  c : Nat
  d : Nat
  e : Nat
  f : Nat
  g : Nat
  h : Nat

/-- The SHA-256 initial hash value. -/
def shaInit : Hash8 :=
  { a := 1779033703, b := 3144134277, c := 1013904242, d := 2773480762,
    e := 1359893119, f := 2600822924, g := 528734635, h := 1541459225 }

/-- Group a byte list into 32-bit big-endian words (4 bytes per word). -/
def bytesToWordsBE : List Nat → List Nat
  | b0 :: b1 :: b2 :: b3 :: rest =>
    (b0 * 16777216 + b1 * 65536 + b2 * 256 + b3) :: bytesToWordsBE rest
  | _ => []

/-- `n`-byte big-endian encoding of `x` (low bytes of `x` if it is larger). -/
def toBytesBE : Nat → Nat → List Nat
  | 0, _ => []
  | k + 1, x => toBytesBE k (x / 256) ++ [x % 256]

/-- One step of the message-schedule extension: the next word from the
last 16 already-computed words. -/
def scheduleStep (ws : List Nat) : Nat :=
  let n := ws.length
  add32 (add32 (sigmaSmall1 (ws.getD (n - 2) 0)) (ws.getD (n - 7) 0))
        (add32 (sigmaSmall0 (ws.getD (n - 15) 0)) (ws.getD (n - 16) 0))

/-- Extend the 16-word schedule by `k` further words. -/
def extendW (ws : List Nat) : Nat → List Nat
  | 0 => ws
  | k + 1 => extendW (ws ++ [scheduleStep ws]) k

/-- One SHA-256 round with round constant `k` and schedule word `w`. -/
def shaRound (st : Hash8) (kw : Nat × Nat) : Hash8 :=
  let t1 := add32 (add32 (add32 (add32 st.h (sigmaBig1 st.e)) (shaCh st.e st.f st.g)) kw.1) kw.2
  let t2 := add32 (sigmaBig0 st.a) (shaMaj st.a st.b st.c)
  { a := add32 t1 t2, b := st.a, c := st.b, d := st.c,
    e := add32 st.d t1, f := st.e, g := st.f, h := st.g }

/-- Compress one 64-byte block into the running hash value. -/
def compressBlock (hv : Hash8) (block : List Nat) : Hash8 :=
  let ws := extendW (bytesToWordsBE block) 48
  let st := (shaK.zip ws).foldl shaRound hv
  { a := add32 hv.a st.a, b := add32 hv.b st.b, c := add32 hv.c st.c, d := add32 hv.d st.d,
    e := add32 hv.e st.e, f := add32 hv.f st.f, g := add32 hv.g st.g, h := add32 hv.h st.h }

/-- Split a byte list into 64-byte chunks. -/
def chunks64 (l : List Nat) : List (List Nat) :=
  if hl : l = [] then []
  else
    have : (l.drop 64).length < l.length := by
      cases l with
      | nil => exact absurd rfl hl
      | cons x xs => simp [List.length_drop]; omega
    l.take 64 :: chunks64 (l.drop 64)
termination_by l.length

/-- SHA-256 padding: `0x80`, zeros to 56 mod 64, then the 8-byte
big-endian bit length. -/
def sha256Pad (msg : List Nat) : List Nat :=
  msg ++ [128] ++ List.replicate ((120 - (msg.length + 1) % 64) % 64) 0
      ++ toBytesBE 8 (8 * msg.length)

/-- SHA-256 digest (32 bytes) of a byte list. -/
def sha256 (msg : List Nat) : List Nat :=
  let hv := (chunks64 (sha256Pad msg)).foldl compressBlock shaInit
  toBytesBE 4 hv.a ++ toBytesBE 4 hv.b ++ toBytesBE 4 hv.c ++ toBytesBE 4 hv.d ++
  toBytesBE 4 hv.e ++ toBytesBE 4 hv.f ++ toBytesBE 4 hv.g ++ toBytesBE 4 hv.h

theorem toBytesBE_length (n x : Nat) : (toBytesBE n x).length = n := by
  induction n generalizing x with
  | zero => rfl
  | succ k ih => simp [toBytesBE, ih]

/-- A SHA-256 digest always has 32 bytes. -/
theorem sha256_length (msg : List Nat) : (sha256 msg).length = 32 := by
  simp [sha256, toBytesBE_length]

/-! ## `crypto.rs`: `verify_ed25519_hex`

The function decodes the hex public key and signature, checks the
lengths (32 and 64 bytes), parses the public key and calls
`ed25519_dalek`'s verification; any failure yields `false`.  The
`ed25519_dalek` primitives are an external crate, so they enter the
embedding as parameters: `pkFromBytes` models
`VerifyingKey::from_bytes` (fallible on a non-canonical point) and
`dalekVerify` models `VerifyingKey::verify(...).is_ok()`.
`Signature::from_bytes` of this dalek version is total on 64-byte
arrays, so the signature is just its bytes. -/

def verify_ed25519_hex {PK : Type} (pkFromBytes : List Nat → Option PK)
    (dalekVerify : PK → List Nat → List Nat → Bool)
    (pubkeyHex sigHex : List Char) (message : List Nat) : Bool :=
  match hexDecode pubkeyHex with
  | none => false
  | some pkBytes =>
    match hexDecode sigHex with
    | none => false
    | some sigBytes =>
      if pkBytes.length = 32 then
        match pkFromBytes pkBytes with
        | none => false
        | some pk =>
          if sigBytes.length = 64 then dalekVerify pk sigBytes message
          else false
      else false

/-- C2: `verify_ed25519_hex` returns `true` exactly when the public key
hex decodes to 32 bytes that parse as an Ed25519 verifying key, the
signature hex decodes to 64 bytes, and the library verification accepts
the signature over the message; every decode, length or verification
failure yields `false`, with no other path returning `true`. -/
theorem verify_ed25519_hex_true_iff {PK : Type} (pkFromBytes : List Nat → Option PK)
    (dalekVerify : PK → List Nat → List Nat → Bool)
    (pubkeyHex sigHex : List Char) (message : List Nat) :
    verify_ed25519_hex pkFromBytes dalekVerify pubkeyHex sigHex message = true ↔
      ∃ pkBytes sigBytes pk,
        hexDecode pubkeyHex = some pkBytes ∧ pkBytes.length = 32 ∧
        hexDecode sigHex = some sigBytes ∧ sigBytes.length = 64 ∧
        pkFromBytes pkBytes = some pk ∧ dalekVerify pk sigBytes message = true := by
  constructor
  · intro hv
    unfold verify_ed25519_hex at hv
    repeat' split at hv
    all_goals first
      | exact ⟨_, _, _, by assumption, by assumption, by assumption, by assumption,
          by assumption, hv⟩
      | simp at hv
  · rintro ⟨pkBytes, sigBytes, pk, hpk, hlen, hsig, hslen, hparse, hver⟩
    simp [verify_ed25519_hex, hpk, hsig, hlen, hslen, hparse, hver]

/-! ## `merkle.rs`: `MerkleTree`

`from_hashes` hex-decodes each leaf string into a 32-byte digest and
builds the levels bottom-up, combining pairs with SHA-256 and, when a
level has an odd count, duplicating the last node.  The embedding works
at digest level (`Digest := List Nat`): hex encoding is a bijection
between 32-byte digests and their 64-character hex strings, and the
`expect`/slice panics of `from_hashes` on malformed hex are outside the
claims' wellformedness assumptions. -/

/-- A digest: a byte list (32 bytes for well-formed input). -/
abbrev Digest := List Nat

/-- The all-zero 32-byte digest `[0u8; 32]`; also used as the `getD`
default standing for the unreachable out-of-bounds cases. -/
def zeroDigest : Digest := List.replicate 32 0

/-- `hasher.update(left); hasher.update(right); hasher.finalize()`. -/
def merkleCombine (left right : Digest) : Digest := sha256 (left ++ right)

/-- One `while` iteration of `from_hashes`: combine adjacent pairs,
duplicating the last node of an odd level (`right = prev[i]`). -/
def nextLevel : List Digest → List Digest
  | [] => []
  | [a] => [merkleCombine a a]
  | a :: b :: rest => merkleCombine a b :: nextLevel rest

theorem nextLevel_length : ∀ l : List Digest, (nextLevel l).length = (l.length + 1) / 2
  | [] => by simp [nextLevel]
  | [_] => by simp [nextLevel]
  | _ :: _ :: rest => by
    simp only [nextLevel, List.length_cons, nextLevel_length rest]
    omega

/-- The `while nodes.last().len() > 1` loop of `from_hashes`: the list
of levels, leaves first. -/
def buildLevels (level : List Digest) : List (List Digest) :=
  if h : level.length ≤ 1 then [level]
  else
    have : (nextLevel level).length < level.length := by
      rw [nextLevel_length]; omega
    level :: buildLevels (nextLevel level)
termination_by level.length

structure MerkleTree where
  nodes : List (List Digest)

/-- `MerkleTree::from_hashes` at digest level. -/
def MerkleTree.fromHashes (hashes : List Digest) : MerkleTree := ⟨buildLevels hashes⟩

/-- `MerkleTree::root_hex` at digest level.  `root_level[0]` on an empty
level panics with an index out of bounds, modelled by `none`; the
`else` branch returns `hex::encode([0u8; 32])`. -/
def MerkleTree.rootHex (t : MerkleTree) : Option Digest :=
  match t.nodes.getLast? with
  | some rootLevel => rootLevel.head?
  | none => some zeroDigest

/-- The `for level in &self.nodes` loop of `proof_for_index`, breaking
at a level of length one. -/
def proofLoop : List (List Digest) → Nat → List (Digest × Bool)
  | [], _ => []
  | level :: rest, idx =>
    if level.length = 1 then []
    else
      let sibIdx := if idx % 2 = 0 then idx + 1 else idx - 1
      let sib := if sibIdx < level.length then level.getD sibIdx zeroDigest
                 else level.getD idx zeroDigest
      (sib, idx % 2 == 0) :: proofLoop rest (idx / 2)

/-- `MerkleTree::proof_for_index`: list of `(sibling, is_left)` pairs,
`is_left = true` when the current node is the left child. -/
def MerkleTree.proofForIndex (t : MerkleTree) (index : Nat) : List (Digest × Bool) :=
  proofLoop t.nodes index

/-- Modelled from the spec: the recomputation of the root from a leaf
and an inclusion proof, `verify` in §4.1 (`crypto::merkle` is not under
`src/`) — fold the proof, hashing the sibling on the side indicated by
its `is_left` flag. -/
def recomputeRootSpec (proof : List (Digest × Bool)) (leaf : Digest) : Digest :=
  proof.foldl (fun acc sib => if sib.2 then merkleCombine acc sib.1 else merkleCombine sib.1 acc)
    leaf

/-- An explicit SHA-256 collision. -/
def ShaCollision : Prop := ∃ x y : List Nat, x ≠ y ∧ sha256 x = sha256 y

theorem buildLevels_of_le_one {level : List Digest} (h : level.length ≤ 1) :
    buildLevels level = [level] := by
  rw [buildLevels]
  simp [h]

theorem buildLevels_of_gt_one {level : List Digest} (h : 1 < level.length) :
    buildLevels level = level :: buildLevels (nextLevel level) := by
  rw [buildLevels]
  simp [Nat.not_le_of_lt h]

theorem buildLevels_ne_nil (level : List Digest) : buildLevels level ≠ [] := by
  by_cases h : level.length ≤ 1
  · rw [buildLevels_of_le_one h]; simp
  · rw [buildLevels_of_gt_one (by omega)]; simp

theorem getLast?_cons_ne {α : Type} (a : α) {l : List α} (h : l ≠ []) :
    (a :: l).getLast? = l.getLast? := by
  rw [List.getLast?_cons]
  cases hx : l.getLast? with
  | none => exact absurd (List.getLast?_eq_none_iff.mp hx) h
  | some x => rfl

/-- The combined node at position `j` of the next level, in terms of
the pair `2j, 2j+1` of the current level (`2j+1` duplicated to `2j`
past the end). -/
theorem nextLevel_getD : ∀ (l : List Digest) (j : Nat), 2 * j < l.length →
    (nextLevel l).getD j zeroDigest =
      merkleCombine (l.getD (2 * j) zeroDigest)
        (if 2 * j + 1 < l.length then l.getD (2 * j + 1) zeroDigest
         else l.getD (2 * j) zeroDigest)
  | [], j, h => by simp at h
  | [a], j, h => by
    have hj : j = 0 := by simp at h; omega
    subst hj
    simp [nextLevel]
  | a :: b :: rest, j, h => by
    match j with
    | 0 => simp [nextLevel]
    | j' + 1 =>
      have hrest : 2 * j' < rest.length := by simp at h; omega
      have h2 : 2 * (j' + 1) = 2 * j' + 1 + 1 := by omega
      rw [h2]
      simp only [nextLevel, List.getD_cons_succ, List.length_cons]
      rw [nextLevel_getD rest j' hrest]
      have hiff : (2 * j' + 1 + 1 + 1 < rest.length + 1 + 1) ↔ (2 * j' + 1 < rest.length) := by
        omega
      by_cases hc : 2 * j' + 1 < rest.length
      · rw [if_pos hc, if_pos (hiff.mpr hc)]
      · rw [if_neg hc, if_neg (fun hx => hc (hiff.mp hx))]

/-- Every digest of `nextLevel` is a SHA-256 output, hence 32 bytes. -/
theorem nextLevel_all_32 : ∀ (l : List Digest), ∀ d ∈ nextLevel l, d.length = 32
  | [] => by simp [nextLevel]
  | [a] => by simp [nextLevel, merkleCombine, sha256_length]
  | a :: b :: rest => by
    intro d hd
    simp only [nextLevel, List.mem_cons] at hd
    rcases hd with h | h
    · rw [h]; exact sha256_length _
    · exact nextLevel_all_32 rest d h

theorem getD_length_32 (l : List Digest) (i : Nat) (hl : ∀ d ∈ l, d.length = 32) :
    (l.getD i zeroDigest).length = 32 := by
  by_cases hi : i < l.length
  · have : l.getD i zeroDigest ∈ l := by
      rw [List.getD_eq_getElem l zeroDigest hi]
      exact List.getElem_mem hi
    exact hl _ this
  · rw [List.getD_eq_default l zeroDigest (by omega)]
    simp [zeroDigest]

/-- Every digest appearing in any level of the tree is 32 bytes when
the leaves are. -/
theorem buildLevels_all_32 (n : Nat) : ∀ (level : List Digest), level.length = n →
    (∀ d ∈ level, d.length = 32) →
    ∀ lvl ∈ buildLevels level, ∀ d ∈ lvl, d.length = 32 := by
  induction n using Nat.strong_induction_on with
  | _ n ih =>
    intro level hn h32 lvl hlvl
    by_cases hle : level.length ≤ 1
    · rw [buildLevels_of_le_one hle] at hlvl
      simp at hlvl
      subst hlvl
      exact h32
    · rw [buildLevels_of_gt_one (by omega)] at hlvl
      rcases List.mem_cons.mp hlvl with h | h
      · subst h; exact h32
      · have hlt : (nextLevel level).length < n := by
          rw [nextLevel_length]; omega
        exact ih _ hlt (nextLevel level) rfl (nextLevel_all_32 level) lvl h

/-- Round trip at an arbitrary level: folding the proof produced by the
level loop over the entry at `idx` recomputes the root of the tree
built from that level. -/
theorem merkle_level_round_trip (n : Nat) : ∀ (level : List Digest), level.length = n →
    ∀ idx, idx < level.length →
    MerkleTree.rootHex ⟨buildLevels level⟩ =
      some (recomputeRootSpec (proofLoop (buildLevels level) idx) (level.getD idx zeroDigest)) := by
  induction n using Nat.strong_induction_on with
  | _ n ih =>
    intro level hn idx hidx
    by_cases hle : level.length ≤ 1
    · have hlen1 : level.length = 1 := by omega
      obtain ⟨x, hx⟩ := List.length_eq_one.mp hlen1
      subst hx
      have hidx0 : idx = 0 := by simpa using hidx
      subst hidx0
      rw [buildLevels_of_le_one hle]
      simp [MerkleTree.rootHex, proofLoop, recomputeRootSpec]
    · have hgt : 1 < level.length := by omega
      rw [buildLevels_of_gt_one hgt]
      have hne : buildLevels (nextLevel level) ≠ [] := buildLevels_ne_nil _
      have hroot : MerkleTree.rootHex ⟨level :: buildLevels (nextLevel level)⟩ =
          MerkleTree.rootHex ⟨buildLevels (nextLevel level)⟩ := by
        simp only [MerkleTree.rootHex]
        rw [getLast?_cons_ne _ hne]
      rw [hroot]
      have hstep : proofLoop (level :: buildLevels (nextLevel level)) idx =
          (if (if idx % 2 = 0 then idx + 1 else idx - 1) < level.length then
             level.getD (if idx % 2 = 0 then idx + 1 else idx - 1) zeroDigest
           else level.getD idx zeroDigest, idx % 2 == 0) ::
            proofLoop (buildLevels (nextLevel level)) (idx / 2) := by
        simp only [proofLoop, if_neg (by omega : ¬ level.length = 1)]
      rw [hstep]
      have hfold : recomputeRootSpec
          ((if (if idx % 2 = 0 then idx + 1 else idx - 1) < level.length then
              level.getD (if idx % 2 = 0 then idx + 1 else idx - 1) zeroDigest
            else level.getD idx zeroDigest, idx % 2 == 0) ::
            proofLoop (buildLevels (nextLevel level)) (idx / 2)) (level.getD idx zeroDigest) =
          recomputeRootSpec (proofLoop (buildLevels (nextLevel level)) (idx / 2))
            ((nextLevel level).getD (idx / 2) zeroDigest) := by
        have hnl : (nextLevel level).getD (idx / 2) zeroDigest =
            merkleCombine (level.getD (2 * (idx / 2)) zeroDigest)
              (if 2 * (idx / 2) + 1 < level.length then level.getD (2 * (idx / 2) + 1) zeroDigest
               else level.getD (2 * (idx / 2)) zeroDigest) :=
          nextLevel_getD level (idx / 2) (by omega)
        by_cases hpar : idx % 2 = 0
        · have h2 : 2 * (idx / 2) = idx := by omega
          rw [h2] at hnl
          simp only [recomputeRootSpec, List.foldl_cons, if_pos hpar, hpar]
          rw [hnl]
          simp
        · have h2 : 2 * (idx / 2) = idx - 1 := by omega
          have h3 : 2 * (idx / 2) + 1 = idx := by omega
          rw [h3, h2, if_pos hidx] at hnl
          have hsib : idx - 1 < level.length := by omega
          simp only [recomputeRootSpec, List.foldl_cons, if_neg hpar, if_pos hsib]
          rw [hnl]
          have : (idx % 2 == 0) = false := by
            simp [hpar]
          rw [this]
          simp
      rw [hfold]
      have hlt : (nextLevel level).length < n := by rw [nextLevel_length]; omega
      have hidx2 : idx / 2 < (nextLevel level).length := by rw [nextLevel_length]; omega
      exact ih _ hlt (nextLevel level) rfl (idx / 2) hidx2

/-- Every sibling in a proof built from 32-byte levels is 32 bytes. -/
theorem proofLoop_all_32 : ∀ (levels : List (List Digest)) (idx : Nat),
    (∀ lvl ∈ levels, ∀ d ∈ lvl, d.length = 32) →
    ∀ e ∈ proofLoop levels idx, e.1.length = 32
  | [], idx, _ => by simp [proofLoop]
  | level :: rest, idx, h32 => by
    intro e he
    simp only [proofLoop] at he
    by_cases h1 : level.length = 1
    · rw [if_pos h1] at he; simp at he
    · rw [if_neg h1] at he
      rcases List.mem_cons.mp he with h | h
      · subst h
        have hlvl : ∀ d ∈ level, d.length = 32 := h32 level (by simp)
        by_cases hc : (if idx % 2 = 0 then idx + 1 else idx - 1) < level.length
        · simp only [if_pos hc]
          exact getD_length_32 level _ hlvl
        · simp only [if_neg hc]
          exact getD_length_32 level _ hlvl
      · exact proofLoop_all_32 rest (idx / 2) (fun lvl hl => h32 lvl (by simp [hl])) e h

/-- A successful recomputation from altered data either used the same
data or exhibits an explicit SHA-256 collision. -/
theorem recompute_collision : ∀ (p p' : List (Digest × Bool)) (leaf leaf' : Digest),
    p'.map Prod.snd = p.map Prod.snd →
    (∀ e ∈ p, e.1.length = 32) → (∀ e ∈ p', e.1.length = 32) →
    leaf.length = 32 → leaf'.length = 32 →
    recomputeRootSpec p' leaf' = recomputeRootSpec p leaf →
    (p' = p ∧ leaf' = leaf) ∨ ShaCollision
  | [], p', leaf, leaf', hmap, _, _, _, _, hrec => by
    have hp' : p' = [] := by simpa using hmap
    subst hp'
    exact Or.inl ⟨rfl, by simpa [recomputeRootSpec] using hrec⟩
  | (s, fl) :: rest, p', leaf, leaf', hmap, hp32, hp'32, hleaf, hleaf', hrec => by
    match p' with
    | [] => simp at hmap
    | (s', fl') :: rest' =>
      have hfl : fl' = fl := by simp at hmap; exact hmap.1
      subst hfl
      have hmap' : rest'.map Prod.snd = rest.map Prod.snd := by simpa using hmap
      have hrest32 : ∀ e ∈ rest, e.1.length = 32 := fun e he => hp32 e (by simp [he])
      have hrest'32 : ∀ e ∈ rest', e.1.length = 32 := fun e he => hp'32 e (by simp [he])
      have hs32 : s.length = 32 := hp32 (s, fl') (by simp)
      have hs'32 : s'.length = 32 := hp'32 (s', fl') (by simp)
      have hacc32 : (if fl' then merkleCombine leaf s else merkleCombine s leaf).length = 32 := by
        by_cases hb : fl' <;> simp [hb, merkleCombine, sha256_length]
      have hacc'32 : (if fl' then merkleCombine leaf' s' else merkleCombine s' leaf').length = 32 := by
        by_cases hb : fl' <;> simp [hb, merkleCombine, sha256_length]
      have hrec' : recomputeRootSpec rest' (if fl' then merkleCombine leaf' s' else merkleCombine s' leaf') =
          recomputeRootSpec rest (if fl' then merkleCombine leaf s else merkleCombine s leaf) := by
        simpa [recomputeRootSpec] using hrec
      rcases recompute_collision rest rest' _ _ hmap' hrest32 hrest'32 hacc32 hacc'32 hrec' with
        ⟨hre, hacc⟩ | hcol
      · by_cases hb : fl' = true
        · subst hb
          simp only [if_pos rfl] at hacc
          by_cases heq : leaf' ++ s' = leaf ++ s
          · have := List.append_inj heq (by rw [hleaf', hleaf])
            exact Or.inl ⟨by rw [hre, this.2], this.1⟩
          · exact Or.inr ⟨leaf' ++ s', leaf ++ s, heq, by simpa [merkleCombine] using hacc⟩
        · have hb' : fl' = false := by simpa using hb
          subst hb'
          simp only [Bool.false_eq_true, if_neg] at hacc
          by_cases heq : s' ++ leaf' = s ++ leaf
          · have := List.append_inj heq (by rw [hs'32, hs32])
            exact Or.inl ⟨by rw [hre, this.1], this.2⟩
          · exact Or.inr ⟨s' ++ leaf', s ++ leaf, heq, by simpa [merkleCombine] using hacc⟩
      · exact Or.inr hcol

/-- C6: Merkle proofs round-trip.  For every non-empty list of 32-byte
transaction hashes and every in-range index `i`, folding the proof
returned by `proof_for_index(i)` over hash `i` (each sibling hashed on
the side given by its `is_left` flag) recomputes exactly the tree's
root; and any alteration of the leaf or of any sibling (keeping the
32-byte shape and the flags) that still recomputes the same root
exhibits an explicit SHA-256 collision — so absent a collision, every
alteration yields a different root. -/
theorem merkle_proof_round_trip (hashes : List Digest) (hne : hashes ≠ [])
    (h32 : ∀ h ∈ hashes, h.length = 32) (i : Nat) (hi : i < hashes.length) :
    (MerkleTree.fromHashes hashes).rootHex =
      some (recomputeRootSpec ((MerkleTree.fromHashes hashes).proofForIndex i)
        (hashes.getD i zeroDigest)) ∧
    (∀ (p' : List (Digest × Bool)) (leaf' : Digest),
      p'.map Prod.snd = ((MerkleTree.fromHashes hashes).proofForIndex i).map Prod.snd →
      (∀ e ∈ p', e.1.length = 32) → leaf'.length = 32 →
      (p' ≠ (MerkleTree.fromHashes hashes).proofForIndex i ∨ leaf' ≠ hashes.getD i zeroDigest) →
      recomputeRootSpec p' leaf' =
        recomputeRootSpec ((MerkleTree.fromHashes hashes).proofForIndex i)
          (hashes.getD i zeroDigest) →
      ShaCollision) := by
  constructor
  · exact merkle_level_round_trip hashes.length hashes rfl i hi
  · intro p' leaf' hmap hp'32 hleaf' hdiff hrec
    have hp32 : ∀ e ∈ (MerkleTree.fromHashes hashes).proofForIndex i, e.1.length = 32 :=
      proofLoop_all_32 (buildLevels hashes) i
        (buildLevels_all_32 hashes.length hashes rfl h32)
    have hleaf : (hashes.getD i zeroDigest).length = 32 := getD_length_32 hashes i h32
    rcases recompute_collision _ p' _ leaf' hmap hp32 hp'32 hleaf hleaf' hrec with ⟨hp, hl⟩ | hcol
    · rcases hdiff with h | h
      · exact absurd hp h
      · exact absurd hl h
    · exact hcol

theorem merkle_proof_round_trip_witness :
    (MerkleTree.fromHashes [zeroDigest]).rootHex =
      some (recomputeRootSpec ((MerkleTree.fromHashes [zeroDigest]).proofForIndex 0)
        (([zeroDigest] : List Digest).getD 0 zeroDigest)) :=
  (merkle_proof_round_trip [zeroDigest] (by simp)
    (by intro h hh; simp at hh; simp [hh, zeroDigest]) 0 (by simp)).1

/-- C7 counterexample: building a tree from zero hashes and asking for
its root does not return `sha256("")` — `root_hex` indexes `[0]` into
the empty leaf level, an out-of-bounds panic (modelled as `none`). -/
theorem merkle_empty_root_not_sha_empty :
    (MerkleTree.fromHashes []).rootHex ≠ some (sha256 []) := by
  rw [MerkleTree.fromHashes, buildLevels_of_le_one (by simp)]
  simp [MerkleTree.rootHex]

/-- C7 amended: building a tree from zero hashes leaves the single leaf
level empty, and `root_hex` fails on it (`root_level[0]` panics,
modelled as `none`) instead of returning any digest. -/
theorem merkle_empty_root_fails : (MerkleTree.fromHashes []).rootHex = none := by
  rw [MerkleTree.fromHashes, buildLevels_of_le_one (by simp)]
  simp [MerkleTree.rootHex]

/-! ## `dag/transaction.rs` + `mempool.rs`: the mempool and `pop_for_block`

The transaction shape is the one the mempool operates on (constructed
in `batch_writer.rs::flush_to_rocks`): it carries `fee`, `chain_id`
and `nonce` besides the basic fields.  `Uuid`s are modelled as `Nat`
and `DateTime<Utc>` as an `Int` count of seconds. -/

structure Transaction where
  id : Nat
  sender : String
  recipient : String
  amount : Nat
  timestamp : Int
  parents : List Nat
  signature : String
  public_key : String
  fee : Nat
  payload : Option String
  chain_id : String
  nonce : Nat
deriving DecidableEq

/-- 24 hours, the mempool TTL (`chrono::Duration::hours(24)`), in seconds. -/
def ttlSeconds : Int := 86400

/-- The `retain` predicate: `now.signed_duration_since(tx.timestamp) < ttl`. -/
def withinTTL (now : Int) (tx : Transaction) : Bool :=
  decide (now - tx.timestamp < ttlSeconds)

/-- The `sort_by` comparator as a `≤` test: `a` may precede `b` iff
`b.fee.cmp(&a.fee).then_with(|| a.timestamp.cmp(&b.timestamp))` is not
`Greater` — fee descending, then timestamp ascending. -/
def feeOrder (a b : Transaction) : Bool :=
  decide (b.fee < a.fee ∨ (a.fee = b.fee ∧ a.timestamp ≤ b.timestamp))

/-- `Mempool::pop_for_block`: read all `mempool:`-prefixed entries,
retain those within the 24-hour TTL, stable-sort by fee descending
(ties by arrival timestamp ascending) and take the first `limit`.
`entries` is the content of the mempool (the `iter_prefix` result);
`List.mergeSort` is a stable sort like Rust's `sort_by`. -/
def popForBlock (now : Int) (limit : Nat) (entries : List Transaction) : List Transaction :=
  (((entries.filter (withinTTL now)).mergeSort feeOrder).take limit)

/-- `pop_for_block` paired with the resulting mempool state: the
method takes `&self` and only reads the store, so the entries are
returned unchanged. -/
def popForBlockS (now : Int) (limit : Nat) (entries : List Transaction) :
    List Transaction × List Transaction :=
  (popForBlock now limit entries, entries)

theorem feeOrder_trans (a b c : Transaction) (h1 : feeOrder a b = true)
    (h2 : feeOrder b c = true) : feeOrder a c = true := by
  simp only [feeOrder, decide_eq_true_eq] at h1 h2 ⊢
  omega

theorem feeOrder_total (a b : Transaction) : (feeOrder a b || feeOrder b a) = true := by
  simp only [feeOrder, Bool.or_eq_true, decide_eq_true_eq]
  omega

/-- C4: `pop_for_block(limit)` returns exactly the TTL-passing entries,
sorted by fee descending with ties broken by arrival timestamp
ascending, truncated to the first `limit`: every returned transaction
is younger than 24 hours (an older one is never returned), the result
is a sub-permutation of the TTL-filtered mempool and the whole of it
when `limit` is large enough, the result is sorted by the fee-then-
timestamp order (so a strictly higher-fee transaction always appears
before a lower-fee one), and the call leaves the mempool unchanged. -/
theorem mempool_pop_for_block_spec (now : Int) (limit : Nat) (entries : List Transaction) :
    (∀ tx ∈ popForBlock now limit entries, now - tx.timestamp < ttlSeconds) ∧
    (popForBlock now limit entries).Subperm (entries.filter (withinTTL now)) ∧
    ((entries.filter (withinTTL now)).length ≤ limit →
      (popForBlock now limit entries).Perm (entries.filter (withinTTL now))) ∧
    List.Pairwise (fun a b => feeOrder a b = true) (popForBlock now limit entries) ∧
    (∀ (i j : Fin (popForBlock now limit entries).length),
      ((popForBlock now limit entries).get i).fee > ((popForBlock now limit entries).get j).fee →
      (i : Nat) < (j : Nat)) ∧
    (popForBlockS now limit entries).2 = entries := by
  have hsorted : List.Pairwise (fun a b => feeOrder a b = true)
      ((entries.filter (withinTTL now)).mergeSort feeOrder) :=
    List.sorted_mergeSort feeOrder_trans feeOrder_total
      (entries.filter (withinTTL now))
  have hperm : ((entries.filter (withinTTL now)).mergeSort feeOrder).Perm
      (entries.filter (withinTTL now)) :=
    List.mergeSort_perm _ _
  have htake : List.Pairwise (fun a b => feeOrder a b = true) (popForBlock now limit entries) :=
    hsorted.sublist (List.take_sublist _ _)
  refine ⟨?_, ?_, ?_, htake, ?_, rfl⟩
  · intro tx htx
    have hmem : tx ∈ (entries.filter (withinTTL now)).mergeSort feeOrder :=
      List.mem_of_mem_take htx
    have : tx ∈ entries.filter (withinTTL now) := hperm.mem_iff.mp hmem
    have := List.of_mem_filter this
    simpa [withinTTL] using this
  · exact ((List.take_sublist _ _).subperm).trans hperm.subperm
  · intro hle
    have hlen : ((entries.filter (withinTTL now)).mergeSort feeOrder).length ≤ limit := by
      rw [hperm.length_eq]; exact hle
    rw [popForBlock, List.take_of_length_le hlen]
    exact hperm
  · intro i j hfee
    rcases Nat.lt_trichotomy (i : Nat) (j : Nat) with h | h | h
    · exact h
    · exact absurd hfee (by rw [Fin.ext (by omega : (i : Nat) = (j : Nat))]; omega)
    · have hr := (List.pairwise_iff_get.mp htake) j i (by omega)
      simp only [feeOrder, decide_eq_true_eq] at hr
      omega

/-! ## `bft/state.rs`: `BFTState::record_signature`

`seen_signatures` is a `HashMap<(validator, round), block_hash>`
modelled as an association list (`insert` conses, `lookup` finds the
most recent binding).  `persist_evidence` inserts one row into the
`evidence` table, modelled as appending to a list; the code discards
the SQL error, so the model's append always succeeds. -/

structure Equivocation where
  validator : String
  round : Nat
  existing : String
  conflicting : String
deriving DecidableEq

structure BFTState where
  seen_signatures : List ((String × Nat) × String)
  evidence : List Equivocation
deriving DecidableEq

/-- `BFTState::record_signature`. -/
def recordSignature (st : BFTState) (validator : String) (round : Nat) (blockHash : String) :
    Except Equivocation Unit × BFTState :=
  match st.seen_signatures.lookup (validator, round) with
  | some existing =>
    if existing ≠ blockHash then
      let e : Equivocation :=
        { validator := validator, round := round, existing := existing, conflicting := blockHash }
      (Except.error e, { st with evidence := st.evidence ++ [e] })
    else
      (Except.ok (), st)
  | none =>
    (Except.ok (),
     { st with seen_signatures := ((validator, round), blockHash) :: st.seen_signatures })

/-- C8: equivocation is detected exactly once per conflict.
`record_signature` returns `Err` iff a different hash was previously
recorded for `(validator, view)`; the error then carries the
validator, the view and both hashes and exactly one evidence record is
appended while the first hash stays recorded; in every `Ok` case
(first signature, or repeat of the same hash) no evidence is
persisted, and a first signature records the hash. -/
theorem bft_record_signature_spec (st : BFTState) (v : String) (r : Nat) (h : String) :
    ((∃ e, (recordSignature st v r h).1 = Except.error e) ↔
      (∃ ex, st.seen_signatures.lookup (v, r) = some ex ∧ ex ≠ h)) ∧
    (∀ ex, st.seen_signatures.lookup (v, r) = some ex → ex ≠ h →
      (recordSignature st v r h).1 =
        Except.error { validator := v, round := r, existing := ex, conflicting := h } ∧
      (recordSignature st v r h).2.evidence =
        st.evidence ++ [{ validator := v, round := r, existing := ex, conflicting := h }] ∧
      (recordSignature st v r h).2.seen_signatures = st.seen_signatures) ∧
    ((recordSignature st v r h).1 = Except.ok () →
      (recordSignature st v r h).2.evidence = st.evidence) ∧
    (st.seen_signatures.lookup (v, r) = none →
      (recordSignature st v r h).1 = Except.ok () ∧
      (recordSignature st v r h).2.seen_signatures.lookup (v, r) = some h ∧
      (recordSignature st v r h).2.evidence = st.evidence) ∧
    (∀ ex, st.seen_signatures.lookup (v, r) = some ex → ex = h →
      (recordSignature st v r h).1 = Except.ok () ∧ (recordSignature st v r h).2 = st) := by
  cases hlook : st.seen_signatures.lookup (v, r) with
  | none =>
    refine ⟨?_, ?_, ?_, ?_, ?_⟩
    · constructor
      · rintro ⟨e, he⟩
        simp [recordSignature, hlook] at he
      · rintro ⟨ex, hex, _⟩
        simp at hex
    · intro ex hex; simp at hex
    · intro _; simp [recordSignature, hlook]
    · intro _
      refine ⟨by simp [recordSignature, hlook], ?_, by simp [recordSignature, hlook]⟩
      simp [recordSignature, hlook, List.lookup]
    · intro ex hex; simp at hex
  | some ex0 =>
    by_cases hne : ex0 ≠ h
    · refine ⟨?_, ?_, ?_, ?_, ?_⟩
      · constructor
        · intro _; exact ⟨ex0, rfl, hne⟩
        · intro _
          exact ⟨{ validator := v, round := r, existing := ex0, conflicting := h },
            by simp [recordSignature, hlook, if_pos hne]⟩
      · intro ex hex _
        have hx : ex = ex0 := by simpa using hex.symm
        subst hx
        refine ⟨by simp [recordSignature, hlook, if_pos hne], ?_, ?_⟩
        · simp [recordSignature, hlook, if_pos hne]
        · simp [recordSignature, hlook, if_pos hne]
      · intro hok
        simp [recordSignature, hlook, if_pos hne] at hok
      · intro hnone; simp at hnone
      · intro ex hex heq
        have hx : ex = ex0 := by simpa using hex.symm
        subst hx
        exact absurd heq hne
    · have heq : ex0 = h := by simpa using hne
      subst heq
      refine ⟨?_, ?_, ?_, ?_, ?_⟩
      · constructor
        · rintro ⟨e, he⟩
          simp [recordSignature, hlook] at he
        · rintro ⟨ex, hex, hx⟩
          have : ex = ex0 := by simpa using hex.symm
          subst this
          exact absurd rfl hx
      · intro ex hex hx
        have : ex = ex0 := by simpa using hex.symm
        subst this
        exact absurd rfl hx
      · intro _; simp [recordSignature, hlook]
      · intro hnone; simp at hnone
      · intro ex hex _
        have : ex = ex0 := by simpa using hex.symm
        subst this
        simp [recordSignature, hlook]

/-! ## `network.rs`: broadcaster fan-out selection

`conns_snapshot` is the snapshot of the connections map (one entry per
peer address, so addresses are distinct); the message id bytes come
from `message_id_from_envelope` (`msgid.as_bytes()`).  Peers are
modelled by their address strings; the empty string is the `getD`
default for the out-of-range cases the loop invariant excludes. -/

/-- `const MAX_FANOUT: usize = 8`. -/
def MAX_FANOUT : Nat := 8

/-- The `while picked < min(MAX_FANOUT, n)` loop, counting down the
number of peers still to pick and stepping `idx = (idx + 1) % n`. -/
def fanoutLoop (conns : List String) (n : Nat) : Nat → Nat → List String
  | _, 0 => []
  | idx, k + 1 => conns.getD idx "" :: fanoutLoop conns n ((idx + 1) % n) k

/-- The broadcaster's target selection: start at `msgid[0] % n` and
take the next `min(MAX_FANOUT, n)` peers cyclically; no targets when
the snapshot is empty. -/
def selectFanout (msgid : List Nat) (conns : List String) : List String :=
  if conns.isEmpty then []
  else fanoutLoop conns conns.length (msgid.headD 0 % conns.length) (min MAX_FANOUT conns.length)

theorem fanoutLoop_length (conns : List String) (n : Nat) :
    ∀ (k idx : Nat), (fanoutLoop conns n idx k).length = k := by
  intro k
  induction k with
  | zero => intro idx; rfl
  | succ k ih => intro idx; simp [fanoutLoop, ih]

theorem fanoutLoop_getD (conns : List String) (n : Nat) (hn : 0 < n) :
    ∀ (k idx j : Nat), j < k → idx < n →
      (fanoutLoop conns n idx k).getD j "" = conns.getD ((idx + j) % n) "" := by
  intro k
  induction k with
  | zero => intro idx j hj; omega
  | succ k ih =>
    intro idx j hj hidx
    cases j with
    | zero =>
      simp [fanoutLoop, Nat.mod_eq_of_lt hidx]
    | succ j' =>
      have hrec := ih ((idx + 1) % n) j' (by omega) (Nat.mod_lt _ hn)
      simp only [fanoutLoop, List.getD_cons_succ]
      rw [hrec, Nat.mod_add_mod]
      have harg : idx + 1 + j' = idx + (j' + 1) := by omega
      rw [harg]

/-- C9: gossip fan-out is bounded and deterministic.  For a message id
(non-empty byte string) and a connection snapshot of `N` distinct peer
addresses, the broadcaster picks exactly `min(8, N)` targets, cyclically
consecutive starting from index `msgid[0] mod N`, and the picked peers
are pairwise distinct — so no broadcast is sent directly to more than 8
peers. -/
theorem network_fanout_spec (msgid : List Nat) (conns : List String)
    (hmsg : msgid ≠ []) (hnodup : conns.Nodup) :
    (selectFanout msgid conns).length = min MAX_FANOUT conns.length ∧
    (selectFanout msgid conns).length ≤ 8 ∧
    (∀ k, k < min MAX_FANOUT conns.length →
      (selectFanout msgid conns).getD k "" =
        conns.getD ((msgid.headD 0 % conns.length + k) % conns.length) "") ∧
    (selectFanout msgid conns).Nodup := by
  by_cases hemp : conns.isEmpty
  · have h0 : conns = [] := List.isEmpty_iff.mp hemp
    subst h0
    simp [selectFanout, MAX_FANOUT]
  · have hn : 0 < conns.length := by
      cases conns with
      | nil => simp at hemp
      | cons x xs => simp
    have hsel : selectFanout msgid conns =
        fanoutLoop conns conns.length (msgid.headD 0 % conns.length)
          (min MAX_FANOUT conns.length) := by
      simp [selectFanout, hemp]
    have hstart : msgid.headD 0 % conns.length < conns.length := Nat.mod_lt _ hn
    have hlen : (selectFanout msgid conns).length = min MAX_FANOUT conns.length := by
      rw [hsel, fanoutLoop_length]
    have hget : ∀ k, k < min MAX_FANOUT conns.length →
        (selectFanout msgid conns).getD k "" =
          conns.getD ((msgid.headD 0 % conns.length + k) % conns.length) "" := by
      intro k hk
      rw [hsel, fanoutLoop_getD conns conns.length hn _ _ k hk hstart]
    refine ⟨hlen, by rw [hlen]; exact le_trans (Nat.min_le_left _ _) (by simp [MAX_FANOUT]), hget, ?_⟩
    rw [List.Nodup, List.pairwise_iff_get]
    intro i j hij hne2
    have hi : (i : Nat) < min MAX_FANOUT conns.length := by
      have := i.isLt; omega
    have hj : (j : Nat) < min MAX_FANOUT conns.length := by
      have := j.isLt; omega
    have hgi : (selectFanout msgid conns).get i =
        conns.getD ((msgid.headD 0 % conns.length + (i : Nat)) % conns.length) "" := by
      rw [← hget _ hi]
      rw [List.getD_eq_getElem _ _ i.isLt]
      simp [List.get_eq_getElem]
    have hgj : (selectFanout msgid conns).get j =
        conns.getD ((msgid.headD 0 % conns.length + (j : Nat)) % conns.length) "" := by
      rw [← hget _ hj]
      rw [List.getD_eq_getElem _ _ j.isLt]
      simp [List.get_eq_getElem]
    rw [hgi, hgj] at hne2
    have ha : (msgid.headD 0 % conns.length + (i : Nat)) % conns.length < conns.length :=
      Nat.mod_lt _ hn
    have hb : (msgid.headD 0 % conns.length + (j : Nat)) % conns.length < conns.length :=
      Nat.mod_lt _ hn
    rw [List.getD_eq_getElem _ _ ha, List.getD_eq_getElem _ _ hb] at hne2
    have hidx : (msgid.headD 0 % conns.length + (i : Nat)) % conns.length =
        (msgid.headD 0 % conns.length + (j : Nat)) % conns.length := by
      have := (List.Nodup.getElem_inj_iff hnodup).mp hne2
      exact this
    have hmodeq : ((i : Nat)) % conns.length = ((j : Nat)) % conns.length :=
      Nat.ModEq.add_left_cancel' (msgid.headD 0 % conns.length) hidx
    rw [Nat.mod_eq_of_lt (by omega), Nat.mod_eq_of_lt (by omega)] at hmodeq
    omega

/-! ## `vm.rs`: the SBT native contract

`SBTContract::execute` receives the transaction's JSON payload.  The
embedding takes the payload already parsed (`serde_json` parse
failures produce a `failed` receipt upstream in `execute_contracts`):
`op` and `sbt_id` mirror `payload.get("op")/get("sbt_id")` with
`.as_str()`.  The KV store (`sbt:<id>` keys) is an association list
where `put_str` conses and `get_str` finds the most recent binding.
The stored JSON object's fields become record fields; a fresh mint has
no `revoked`/`revoked_by`/`revoked_at` members, modelled as
`false`/`none`. -/

structure SbtPayload where
  op : Option String
  sbt_id : Option String
  meta : Option String
deriving DecidableEq

structure SbtRecord where
  sbt_id : String
  issuer : String
  meta : Option String
  mint_tx : Nat
  minted_at : Int
  revoked : Bool
  revoked_by : Option String
  revoked_at : Option Int
deriving DecidableEq

abbrev SbtDb := List (String × SbtRecord)

inductive SbtOutcome where
  | minted (sbt_id : String)
  | revoked (sbt_id : String)
deriving DecidableEq

/-- `SBTContract::execute` for transaction sender `sender`, id `txId`
and timestamp `ts`: `mint` stores the record with `issuer = sender`;
`revoke` marks an existing record revoked (`revoked_by = sender`) and
fails only when the record does not exist; other/missing ops fail. -/
def sbtExecute (db : SbtDb) (sender : String) (txId : Nat) (ts : Int)
    (payload : Option SbtPayload) : Except String SbtOutcome × SbtDb :=
  match payload with
  | none => (Except.error "missing payload", db)
  | some p =>
    match p.op with
    | none => (Except.error "missing op", db)
    | some op =>
      if op = "mint" then
        match p.sbt_id with
        | none => (Except.error "missing sbt_id", db)
        | some sid =>
          let record : SbtRecord :=
            { sbt_id := sid, issuer := sender, meta := p.meta, mint_tx := txId,
              minted_at := ts, revoked := false, revoked_by := none, revoked_at := none }
          (Except.ok (SbtOutcome.minted sid), ("sbt:" ++ sid, record) :: db)
      else if op = "revoke" then
        match p.sbt_id with
        | none => (Except.error "missing sbt_id", db)
        | some sid =>
          match db.lookup ("sbt:" ++ sid) with
          | some existing =>
            let updated : SbtRecord :=
              { existing with revoked := true, revoked_by := some sender, revoked_at := some ts }
            (Except.ok (SbtOutcome.revoked sid), ("sbt:" ++ sid, updated) :: db)
          | none => (Except.error "sbt not found", db)
      else (Except.error "unsupported op", db)

/-- C5: the code does not restrict revocation to the issuer.  With an
SBT record minted by "alice" in the store, a `revoke` transaction sent
by "bob" (a non-issuer) succeeds — `execute` returns `Ok` (an `ok`
receipt, not a `failed` one) and the stored record is marked revoked
with `revoked_by = "bob"`, its issuer still "alice". -/
theorem sbt_revoke_by_non_issuer_succeeds :
    ("bob" : String) ≠ "alice" ∧
    (sbtExecute
        [("sbt:token1",
          { sbt_id := "token1", issuer := "alice", meta := none, mint_tx := 1,
            minted_at := 0, revoked := false, revoked_by := none, revoked_at := none })]
        "bob" 2 5
        (some { op := some "revoke", sbt_id := some "token1", meta := none })).1 =
      Except.ok (SbtOutcome.revoked "token1") ∧
    ((sbtExecute
        [("sbt:token1",
          { sbt_id := "token1", issuer := "alice", meta := none, mint_tx := 1,
            minted_at := 0, revoked := false, revoked_by := none, revoked_at := none })]
        "bob" 2 5
        (some { op := some "revoke", sbt_id := some "token1", meta := none })).2.lookup
          "sbt:token1" =
      some { sbt_id := "token1", issuer := "alice", meta := none, mint_tx := 1,
             minted_at := 0, revoked := true, revoked_by := some "bob",
             revoked_at := some 5 }) := by
  refine ⟨by decide, ?_, ?_⟩ <;> rfl

theorem network_fanout_spec_witness :
    ([10] : List Nat) ≠ [] ∧ (["a", "b", "c"] : List String).Nodup ∧
    (selectFanout [10] ["a", "b", "c"]).length = min MAX_FANOUT 3 ∧
    (selectFanout [10] ["a", "b", "c"]).Nodup :=
  ⟨by decide, by decide,
   (network_fanout_spec [10] ["a", "b", "c"] (by decide) (by decide)).1,
   (network_fanout_spec [10] ["a", "b", "c"] (by decide) (by decide)).2.2.2⟩

/-! ## `api.rs::submit_tx` and `batch_writer.rs`

The handler: validate non-empty `tx_hash`/`sender`/`recipient` (after
`trim`), reject a `tx_hash` already present in `tx_index`, verify the
Ed25519 signature over the `tx_hash` bytes only when the payload
carries both `public_key` and `signature`, return the existing `tx_id`
for a known `idempotency_key`, otherwise queue a
`PendingTransaction` for the batch writer and answer 202 with a fresh
`tx_id`.  `Uuid::new_v4` is the `freshId` argument.  The batch
writer's `flush_to_postgres` bulk-inserts the queued rows with
`ON CONFLICT (tx_id) DO NOTHING`; its column list has no
`idempotency_key`, so that column is `NULL` (`none`) on every row it
writes. -/

structure ApiPayload where
  public_key : Option (List Char)
  signature : Option (List Char)
  amount : Option Nat
  fee : Option Nat
deriving DecidableEq

structure IncomingTxn where
  tx_hash : List Char
  sender : List Char
  recipient : List Char
  payload : ApiPayload
  signature : Option (List Char)
  idempotency_key : Option (List Char)
  nonce : Option Int
deriving DecidableEq

/-- A row of the `transactions` table (the columns `submit_tx` reads). -/
structure TxRow where
  tx_id : Nat
  tx_hash : List Char
  idempotency_key : Option (List Char)
deriving DecidableEq

/-- `batch_writer::PendingTransaction` — note: no `idempotency_key`
field exists in the source struct. -/
structure PendingTransaction where
  tx_id : Nat
  tx_hash : List Char
  sender : List Char
  recipient : List Char
  amount : Nat
  fee : Nat
  public_key : List Char
deriving DecidableEq

structure ApiDb where
  txIndexHashes : List (List Char)
  transactions : List TxRow
  queued : List PendingTransaction
deriving DecidableEq

inductive SubmitResult where
  | badRequest (msg : String)
  | duplicate
  | okExisting (txId : Nat)
  | accepted (txId : Nat)
deriving DecidableEq

/-- Rust `str::trim`. -/
def trimChars (s : List Char) : List Char :=
  ((s.dropWhile Char.isWhitespace).reverse.dropWhile Char.isWhitespace).reverse

/-- The `PendingTransaction` built by `submit_tx` (amount, fee and
public_key extracted from the payload with defaults). -/
def pendingOf (freshId : Nat) (incoming : IncomingTxn) : PendingTransaction :=
  { tx_id := freshId, tx_hash := incoming.tx_hash, sender := incoming.sender,
    recipient := incoming.recipient, amount := (incoming.payload.amount).getD 0,
    fee := (incoming.payload.fee).getD 0,
    public_key := (incoming.payload.public_key).getD [] }

/-- The tail of `submit_tx` after the signature gate: idempotency-key
lookup, then queue to the batch writer. -/
def submitTxQueue (freshId : Nat) (incoming : IncomingTxn) (db : ApiDb) :
    SubmitResult × ApiDb :=
  let queueNew : SubmitResult × ApiDb :=
    (SubmitResult.accepted freshId,
     { db with queued := db.queued ++ [pendingOf freshId incoming] })
  match incoming.idempotency_key with
  | some key =>
    match (db.transactions.filter (fun r => decide (r.idempotency_key = some key))).head? with
    | some row => (SubmitResult.okExisting row.tx_id, db)
    | none => queueNew
  | none => queueNew

/-- `api.rs::submit_tx`. -/
def submitTx {PK : Type} (pkFromBytes : List Nat → Option PK)
    (dalekVerify : PK → List Nat → List Nat → Bool)
    (freshId : Nat) (incoming : IncomingTxn) (db : ApiDb) : SubmitResult × ApiDb :=
  if (trimChars incoming.tx_hash).isEmpty then
    (SubmitResult.badRequest "tx_hash required", db)
  else if (trimChars incoming.sender).isEmpty ∨ (trimChars incoming.recipient).isEmpty then
    (SubmitResult.badRequest "sender and recipient are required", db)
  else if incoming.tx_hash ∈ db.txIndexHashes then
    (SubmitResult.duplicate, db)
  else
    match incoming.payload.public_key with
    | some pubkey =>
      (match incoming.payload.signature with
       | some sig =>
         if verify_ed25519_hex pkFromBytes dalekVerify pubkey sig
             (incoming.tx_hash.map Char.toNat) then
           submitTxQueue freshId incoming db
         else
           (SubmitResult.badRequest "signature invalid", db)
       | none => submitTxQueue freshId incoming db)
    | none => submitTxQueue freshId incoming db

/-- One row of the bulk `INSERT ... ON CONFLICT (tx_id) DO NOTHING`:
the column list omits `idempotency_key`, so the inserted row's key
column is `NULL`. -/
def insertRowIgnore (rows : List TxRow) (p : PendingTransaction) : List TxRow :=
  if rows.any (fun r => r.tx_id == p.tx_id) then rows
  else rows ++ [{ tx_id := p.tx_id, tx_hash := p.tx_hash, idempotency_key := none }]

/-- `batch_writer::flush_to_postgres` followed by `batch.clear()`. -/
def flushToPostgres (db : ApiDb) : ApiDb :=
  { db with transactions := db.queued.foldl insertRowIgnore db.transactions, queued := [] }

/-- C10: `POST /tx/submit` verifies a signature only when the payload
carries both `public_key` and `signature`.  If either field is absent
and the non-empty-field, duplicate and idempotency checks pass, the
transaction is queued and answered 202 with the fresh `tx_id` — the
result does not depend on the cryptographic verifier at all. -/
theorem submit_no_verification_without_both_fields {PK : Type}
    (pkFromBytes : List Nat → Option PK) (dalekVerify : PK → List Nat → List Nat → Bool)
    (freshId : Nat) (incoming : IncomingTxn) (db : ApiDb)
    (hnokey : incoming.payload.public_key = none ∨ incoming.payload.signature = none)
    (hhash : ¬ (trimChars incoming.tx_hash).isEmpty = true)
    (hsr : ¬ ((trimChars incoming.sender).isEmpty = true ∨
              (trimChars incoming.recipient).isEmpty = true))
    (hdup : incoming.tx_hash ∉ db.txIndexHashes)
    (hidem : ∀ key, incoming.idempotency_key = some key →
      ∀ r ∈ db.transactions, r.idempotency_key ≠ some key) :
    submitTx pkFromBytes dalekVerify freshId incoming db =
      (SubmitResult.accepted freshId,
       { db with queued := db.queued ++ [pendingOf freshId incoming] }) := by
  have hqueue : submitTxQueue freshId incoming db =
      (SubmitResult.accepted freshId,
       { db with queued := db.queued ++ [pendingOf freshId incoming] }) := by
    unfold submitTxQueue
    cases hkey : incoming.idempotency_key with
    | none => rfl
    | some key =>
      have hfil : db.transactions.filter (fun r => decide (r.idempotency_key = some key)) = [] := by
        rw [List.filter_eq_nil_iff]
        intro r hr
        simpa using hidem key hkey r hr
      simp only [hfil]
      rfl
  unfold submitTx
  rw [if_neg hhash, if_neg hsr, if_neg hdup]
  rcases hnokey with h | h
  · rw [h]
    exact hqueue
  · cases hpk : incoming.payload.public_key with
    | none => exact hqueue
    | some pubkey =>
      rw [h]
      exact hqueue

theorem submit_no_verification_without_both_fields_witness :
    @submitTx Unit (fun _ => none) (fun _ _ _ => false) 7
        { tx_hash := ['a', 'b'], sender := ['s'], recipient := ['r'],
          payload := { public_key := none, signature := some ['f', 'f'],
                       amount := some 5, fee := some 1 },
          signature := none, idempotency_key := none, nonce := none }
        { txIndexHashes := [], transactions := [], queued := [] } =
      (SubmitResult.accepted 7,
       { txIndexHashes := [], transactions := [],
         queued := [{ tx_id := 7, tx_hash := ['a', 'b'], sender := ['s'],
                      recipient := ['r'], amount := 5, fee := 1, public_key := [] }] }) :=
  @submit_no_verification_without_both_fields Unit (fun _ => none) (fun _ _ _ => false) 7
    { tx_hash := ['a', 'b'], sender := ['s'], recipient := ['r'],
      payload := { public_key := none, signature := some ['f', 'f'],
                   amount := some 5, fee := some 1 },
      signature := none, idempotency_key := none, nonce := none }
    { txIndexHashes := [], transactions := [], queued := [] }
    (Or.inl rfl) (by decide) (by decide) (by decide) (by intro key hk; simp at hk)

/-- C3: submission is not idempotent on the client idempotency key.
The same envelope (idempotency key `"k"`) submitted twice around a
batch-writer flush gets two distinct fresh `tx_id`s with 202 both
times: `flush_to_postgres` never writes the `idempotency_key` column,
so the second submission's key lookup finds nothing and a new
transaction is queued instead of returning the existing `tx_id` with
200. -/
theorem submit_same_key_twice_two_tx_ids :
    (@submitTx Unit (fun _ => none) (fun _ _ _ => false) 1
        { tx_hash := ['a', 'b'], sender := ['s'], recipient := ['r'],
          payload := { public_key := none, signature := none, amount := some 5, fee := some 1 },
          signature := none, idempotency_key := some ['k'], nonce := none }
        { txIndexHashes := [], transactions := [], queued := [] }).1 =
      SubmitResult.accepted 1 ∧
    (@submitTx Unit (fun _ => none) (fun _ _ _ => false) 2
        { tx_hash := ['a', 'b'], sender := ['s'], recipient := ['r'],
          payload := { public_key := none, signature := none, amount := some 5, fee := some 1 },
          signature := none, idempotency_key := some ['k'], nonce := none }
        (flushToPostgres
          (@submitTx Unit (fun _ => none) (fun _ _ _ => false) 1
            { tx_hash := ['a', 'b'], sender := ['s'], recipient := ['r'],
              payload := { public_key := none, signature := none, amount := some 5,
                           fee := some 1 },
              signature := none, idempotency_key := some ['k'], nonce := none }
            { txIndexHashes := [], transactions := [], queued := [] }).2)).1 =
      SubmitResult.accepted 2 ∧
    (1 : Nat) ≠ 2 ∧
    (∀ r ∈ (flushToPostgres
        (@submitTx Unit (fun _ => none) (fun _ _ _ => false) 1
          { tx_hash := ['a', 'b'], sender := ['s'], recipient := ['r'],
            payload := { public_key := none, signature := none, amount := some 5, fee := some 1 },
            signature := none, idempotency_key := some ['k'], nonce := none }
          { txIndexHashes := [], transactions := [], queued := [] }).2).transactions,
      r.idempotency_key = none) := by
  refine ⟨rfl, rfl, by decide, ?_⟩
  intro r hr
  simp [submitTx, submitTxQueue, flushToPostgres, trimChars, pendingOf, insertRowIgnore] at hr
  rw [hr]

/-! ## `lib.rs` checkpoint commit + `reconciliation.rs::finalize_block`

The legacy checkpoint path (lib.rs, the block-persist loop): it calls
`finalize_block` (which executes the VM, persists receipts and applies
balance deltas per successful transaction, *discarding* every balance
SQL error with `let _ = ...` and returning `Ok`), then executes the
contracts, begins a SQL transaction, serializes the block, inserts it
into `blocks`, inserts the `tx_index` rows, and commits; every failure
path rolls the SQL transaction back and re-adds (`add_tx`, an upsert
on `mempool:<id>`) the block's transactions to the mempool.  The
`CommitFaults` record says which steps fail in a run; the SQL
transaction's staged writes reach `blocks`/`tx_index` only when the
final commit succeeds.  Transactions here are plain value transfers
(no payload), which the VM always executes with status `ok`. -/

structure ChainState where
  mempool : List Transaction
  blocks : List (Nat × List Nat)
  txIndex : List (Nat × Nat)
  balances : List (String × Int)
  receipts : List Nat
deriving DecidableEq

structure CommitFaults where
  finalizeFails : Bool
  balanceSqlFails : Bool
  execFails : Bool
  beginFails : Bool
  serializeFails : Bool
  insertBlockFails : Bool
  insertTxIndexFails : Bool
  commitFails : Bool
deriving DecidableEq

def balGet (bs : List (String × Int)) (a : String) : Int := (bs.lookup a).getD 0

/-- The `ON CONFLICT (account) DO UPDATE` upsert adding `delta` to an
account's balance (a missing row starts from 0). -/
def balAdd (bs : List (String × Int)) (a : String) (delta : Int) : List (String × Int) :=
  (a, balGet bs a + delta) :: bs

/-- `Mempool::add_tx`: `put` under `mempool:<id>`, an upsert (re-adding
an already-present id leaves the set of entries unchanged). -/
def addTxUpsert (m : List Transaction) (tx : Transaction) : List Transaction :=
  if m.any (fun t => t.id == tx.id) then m else m ++ [tx]

def requeue (st : ChainState) (txs : List Transaction) : ChainState :=
  { st with mempool := txs.foldl addTxUpsert st.mempool }

/-- `reconciliation.rs::finalize_block` step 5-6 with the block's
transactions resolved: persist a receipt per transaction, then apply
the balance deltas of each (successfully executed) transaction —
`sender -= amount + fee`, `recipient += amount` — with every SQL error
discarded (`let _ = sqlx::query(...)`); the function returns `Ok`
either way. -/
def applyBalances : List Transaction → ChainState → ChainState
  | [], st => st
  | tx :: rest, st =>
    let s1 := { st with balances := balAdd st.balances tx.sender (-((tx.amount : Int) + (tx.fee : Int))) }
    applyBalances rest { s1 with balances := balAdd s1.balances tx.recipient (tx.amount : Int) }

def finalizeBlockBalances (f : CommitFaults) (txs : List Transaction) (st : ChainState) :
    ChainState :=
  let st1 := { st with receipts := st.receipts ++ txs.map Transaction.id }
  if f.balanceSqlFails then st1
  else applyBalances txs st1

/-- The lib.rs checkpoint commit of one block. -/
def commitBlock (f : CommitFaults) (blockId : Nat) (txs : List Transaction)
    (st : ChainState) : ChainState :=
  if f.finalizeFails then requeue st txs
  else
    let st1 := finalizeBlockBalances f txs st
    if f.execFails then requeue st1 txs
    else if f.beginFails then requeue st1 txs
    else if f.serializeFails then requeue st1 txs
    else if f.insertBlockFails then requeue st1 txs
    else if f.insertTxIndexFails then requeue st1 txs
    else if f.commitFails then requeue st1 txs
    else
      { st1 with blocks := st1.blocks ++ [(blockId, txs.map Transaction.id)],
                 txIndex := st1.txIndex ++ txs.map (fun tx => (tx.id, blockId)) }

/-- C1 counterexample: a balance-update failure does not revert the
commit.  With one transfer (alice → bob, amount 5, fee 1) and only the
balance SQL statements failing, the block is still recorded in
`blocks` and `tx_index` — the commit is not re-queued, contradicting
the claim that any failure (including a balance-update failure)
reverts the block. -/
theorem commit_balance_failure_not_reverted :
    (commitBlock
        { finalizeFails := false, balanceSqlFails := true, execFails := false,
          beginFails := false, serializeFails := false, insertBlockFails := false,
          insertTxIndexFails := false, commitFails := false }
        99
        [{ id := 7, sender := "alice", recipient := "bob", amount := 5, timestamp := 0,
           parents := [], signature := "", public_key := "", fee := 1, payload := none,
           chain_id := "ouroboros-mainnet-1", nonce := 0 }]
        { mempool := [{ id := 7, sender := "alice", recipient := "bob", amount := 5,
                        timestamp := 0, parents := [], signature := "", public_key := "",
                        fee := 1, payload := none, chain_id := "ouroboros-mainnet-1",
                        nonce := 0 }],
          blocks := [], txIndex := [], balances := [], receipts := [] }).blocks =
      [(99, [7])] ∧
    (commitBlock
        { finalizeFails := false, balanceSqlFails := true, execFails := false,
          beginFails := false, serializeFails := false, insertBlockFails := false,
          insertTxIndexFails := false, commitFails := false }
        99
        [{ id := 7, sender := "alice", recipient := "bob", amount := 5, timestamp := 0,
           parents := [], signature := "", public_key := "", fee := 1, payload := none,
           chain_id := "ouroboros-mainnet-1", nonce := 0 }]
        { mempool := [{ id := 7, sender := "alice", recipient := "bob", amount := 5,
                        timestamp := 0, parents := [], signature := "", public_key := "",
                        fee := 1, payload := none, chain_id := "ouroboros-mainnet-1",
                        nonce := 0 }],
          blocks := [], txIndex := [], balances := [], receipts := [] }).txIndex =
      [(7, 99)] := by
  constructor <;> rfl

theorem applyBalances_blocks : ∀ (txs : List Transaction) (st : ChainState),
    (applyBalances txs st).blocks = st.blocks
  | [], st => by simp [applyBalances]
  | tx :: rest, st => by
    simp only [applyBalances]
    exact applyBalances_blocks rest _

theorem applyBalances_txIndex : ∀ (txs : List Transaction) (st : ChainState),
    (applyBalances txs st).txIndex = st.txIndex
  | [], st => by simp [applyBalances]
  | tx :: rest, st => by
    simp only [applyBalances]
    exact applyBalances_txIndex rest _

theorem applyBalances_mempool : ∀ (txs : List Transaction) (st : ChainState),
    (applyBalances txs st).mempool = st.mempool
  | [], st => by simp [applyBalances]
  | tx :: rest, st => by
    simp only [applyBalances]
    exact applyBalances_mempool rest _

theorem finalizeBlockBalances_blocks (f : CommitFaults) (txs : List Transaction)
    (st : ChainState) : (finalizeBlockBalances f txs st).blocks = st.blocks := by
  unfold finalizeBlockBalances
  by_cases hb : f.balanceSqlFails <;> simp [hb, applyBalances_blocks]

theorem finalizeBlockBalances_txIndex (f : CommitFaults) (txs : List Transaction)
    (st : ChainState) : (finalizeBlockBalances f txs st).txIndex = st.txIndex := by
  unfold finalizeBlockBalances
  by_cases hb : f.balanceSqlFails <;> simp [hb, applyBalances_txIndex]

theorem finalizeBlockBalances_mempool (f : CommitFaults) (txs : List Transaction)
    (st : ChainState) : (finalizeBlockBalances f txs st).mempool = st.mempool := by
  unfold finalizeBlockBalances
  by_cases hb : f.balanceSqlFails <;> simp [hb, applyBalances_mempool]

theorem requeue_blocks (st : ChainState) (txs : List Transaction) :
    (requeue st txs).blocks = st.blocks := rfl

theorem requeue_txIndex (st : ChainState) (txs : List Transaction) :
    (requeue st txs).txIndex = st.txIndex := rfl

theorem foldl_addTxUpsert_mono : ∀ (txs : List Transaction) (m : List Transaction) (x : Nat),
    (∃ t ∈ m, t.id = x) → ∃ t ∈ txs.foldl addTxUpsert m, t.id = x
  | [], m, x, h => h
  | tx :: rest, m, x, h => by
    apply foldl_addTxUpsert_mono rest
    unfold addTxUpsert
    by_cases hc : m.any (fun t => t.id == tx.id)
    · simpa [hc] using h
    · obtain ⟨t, ht, hid⟩ := h
      exact ⟨t, by simp [hc, List.mem_append, ht], hid⟩

theorem foldl_addTxUpsert_mem : ∀ (txs : List Transaction) (m : List Transaction),
    ∀ tx ∈ txs, ∃ t ∈ txs.foldl addTxUpsert m, t.id = tx.id
  | [], m, tx, h => by simp at h
  | hd :: rest, m, tx, h => by
    rcases List.mem_cons.mp h with heq | hmem
    · subst heq
      apply foldl_addTxUpsert_mono rest
      unfold addTxUpsert
      by_cases hc : m.any (fun t => t.id == tx.id)
      · obtain ⟨t, ht, hid⟩ := List.any_eq_true.mp hc
        exact ⟨t, by simp [hc, ht], by simpa using hid⟩
      · exact ⟨tx, by simp [hc], rfl⟩
    · exact foldl_addTxUpsert_mem rest (addTxUpsert m hd) tx hmem

theorem requeue_mem_id (st : ChainState) (txs : List Transaction) :
    ∀ tx ∈ txs, ∃ t ∈ (requeue st txs).mempool, t.id = tx.id := by
  intro tx htx
  exact foldl_addTxUpsert_mem txs st.mempool tx htx

/-- C1 amended: failures of the relational block-persist steps do
revert.  When `finalize_block` itself, the contract execution, the SQL
`begin`, the block serialization, the `blocks` insert, a `tx_index`
insert or the SQL commit fails, the SQL transaction is rolled back and
the block's transactions are re-added to the mempool: the block appears
in neither `blocks` nor `tx_index` and every transaction of the block
is again (still) present in the mempool.  (Balance deltas, applied
earlier inside `finalize_block` with errors discarded, are outside
this revert: a balance-update failure aborts nothing and is itself
ignored.) -/
theorem commit_persist_failure_reverts (f : CommitFaults) (blockId : Nat)
    (txs : List Transaction) (st : ChainState)
    (hfail : f.finalizeFails = true ∨ f.execFails = true ∨ f.beginFails = true ∨
      f.serializeFails = true ∨ f.insertBlockFails = true ∨ f.insertTxIndexFails = true ∨
      f.commitFails = true) :
    (commitBlock f blockId txs st).blocks = st.blocks ∧
    (commitBlock f blockId txs st).txIndex = st.txIndex ∧
    ∀ tx ∈ txs, ∃ t ∈ (commitBlock f blockId txs st).mempool, t.id = tx.id := by
  have hfb := finalizeBlockBalances_blocks f txs st
  have hft := finalizeBlockBalances_txIndex f txs st
  have hfm := finalizeBlockBalances_mempool f txs st
  unfold commitBlock
  by_cases h1 : f.finalizeFails <;> simp only [h1, if_pos, if_neg, if_true, if_false,
    Bool.false_eq_true]
  · exact ⟨requeue_blocks st txs, requeue_txIndex st txs, requeue_mem_id st txs⟩
  · have hrb : (requeue (finalizeBlockBalances f txs st) txs).blocks = st.blocks := by
      rw [requeue_blocks, hfb]
    have hrt : (requeue (finalizeBlockBalances f txs st) txs).txIndex = st.txIndex := by
      rw [requeue_txIndex, hft]
    have hrm : ∀ tx ∈ txs,
        ∃ t ∈ (requeue (finalizeBlockBalances f txs st) txs).mempool, t.id = tx.id :=
      requeue_mem_id (finalizeBlockBalances f txs st) txs
    by_cases h2 : f.execFails <;> simp only [h2, if_true, if_false, Bool.false_eq_true]
    · exact ⟨hrb, hrt, hrm⟩
    by_cases h3 : f.beginFails <;> simp only [h3, if_true, if_false, Bool.false_eq_true]
    · exact ⟨hrb, hrt, hrm⟩
    by_cases h4 : f.serializeFails <;> simp only [h4, if_true, if_false, Bool.false_eq_true]
    · exact ⟨hrb, hrt, hrm⟩
    by_cases h5 : f.insertBlockFails <;> simp only [h5, if_true, if_false, Bool.false_eq_true]
    · exact ⟨hrb, hrt, hrm⟩
    by_cases h6 : f.insertTxIndexFails <;> simp only [h6, if_true, if_false, Bool.false_eq_true]
    · exact ⟨hrb, hrt, hrm⟩
    by_cases h7 : f.commitFails <;> simp only [h7, if_true, if_false, Bool.false_eq_true]
    · exact ⟨hrb, hrt, hrm⟩
    · simp [h1, h2, h3, h4, h5, h6, h7] at hfail

theorem commit_persist_failure_reverts_witness :
    (commitBlock
        { finalizeFails := false, balanceSqlFails := false, execFails := false,
          beginFails := false, serializeFails := false, insertBlockFails := true,
          insertTxIndexFails := false, commitFails := false }
        99
        [{ id := 7, sender := "alice", recipient := "bob", amount := 5, timestamp := 0,
           parents := [], signature := "", public_key := "", fee := 1, payload := none,
           chain_id := "ouroboros-mainnet-1", nonce := 0 }]
        { mempool := [], blocks := [], txIndex := [], balances := [],
          receipts := [] }).blocks = ([] : List (Nat × List Nat)) ∧
    (commitBlock
        { finalizeFails := false, balanceSqlFails := false, execFails := false,
          beginFails := false, serializeFails := false, insertBlockFails := true,
          insertTxIndexFails := false, commitFails := false }
        99
        [{ id := 7, sender := "alice", recipient := "bob", amount := 5, timestamp := 0,
           parents := [], signature := "", public_key := "", fee := 1, payload := none,
           chain_id := "ouroboros-mainnet-1", nonce := 0 }]
        { mempool := [], blocks := [], txIndex := [], balances := [],
          receipts := [] }).txIndex = ([] : List (Nat × Nat)) ∧
    ∀ tx ∈ ([{ id := 7, sender := "alice", recipient := "bob", amount := 5, timestamp := 0,
               parents := [], signature := "", public_key := "", fee := 1, payload := none,
               chain_id := "ouroboros-mainnet-1", nonce := 0 }] : List Transaction),
      ∃ t ∈ (commitBlock
          { finalizeFails := false, balanceSqlFails := false, execFails := false,
            beginFails := false, serializeFails := false, insertBlockFails := true,
            insertTxIndexFails := false, commitFails := false }
          99
          [{ id := 7, sender := "alice", recipient := "bob", amount := 5, timestamp := 0,
             parents := [], signature := "", public_key := "", fee := 1, payload := none,
             chain_id := "ouroboros-mainnet-1", nonce := 0 }]
          { mempool := [], blocks := [], txIndex := [], balances := [],
            receipts := [] }).mempool, t.id = tx.id :=
  commit_persist_failure_reverts
    { finalizeFails := false, balanceSqlFails := false, execFails := false,
      beginFails := false, serializeFails := false, insertBlockFails := true,
      insertTxIndexFails := false, commitFails := false }
    99
    [{ id := 7, sender := "alice", recipient := "bob", amount := 5, timestamp := 0,
       parents := [], signature := "", public_key := "", fee := 1, payload := none,
       chain_id := "ouroboros-mainnet-1", nonce := 0 }]
    { mempool := [], blocks := [], txIndex := [], balances := [], receipts := [] }
    (by decide)
